import Mathlib

/-!
Verification of the diablo-clone simulation core.

The Rust source is shallowly embedded: `f32` values are idealized as exact
rationals (`ℚ`), `i32` as `ℤ` (with explicit wraparound `% 2^32` where the
source uses `wrapping_mul` / `as u32`), and `u32` as `ℕ` below `2^32`.
Euclidean-distance comparisons `sqrt(dx*dx+dy*dy) <= r` in the source are
embedded in the equivalent squared form `dx*dx+dy*dy <= r*r` (real `sqrt`
is monotone and `r ≥ 0` at every call site).  The global RNG of the host
(`macroquad::rand`) is embedded as an explicit stream of naturals threaded
through the state; the external Perlin-noise terrain sampler (crate `noise`,
not part of this repository) is abstracted as a function parameter
`terrainAt : ℚ → ℚ → Terrain`, which is sound because the sampler is pure
and fully determined by the world seed.
-/

namespace DiabloClone

/-! ## Coordinate transform (src/camera.rs) -/

def TILE_WIDTH : ℚ := 64

def TILE_HEIGHT : ℚ := 32

structure GameCamera where
  x : ℚ
  y : ℚ
  lerpSpeed : ℚ
deriving DecidableEq

def GameCamera.new : GameCamera :=
  { x := 0, y := 0, lerpSpeed := 5 }

/-- World-to-screen isometric projection (camera.rs lines 28-41); the live
viewport size `(screenW, screenH)` is passed explicitly in place of the
host calls `screen_width()` / `screen_height()`. -/
def GameCamera.worldToScreen (cam : GameCamera) (screenW screenH worldX worldY : ℚ) : ℚ × ℚ :=
  let relX := worldX - cam.x
  let relY := worldY - cam.y
  let isoX := (relX - relY) * (TILE_WIDTH / 2)
  let isoY := (relX + relY) * (TILE_HEIGHT / 2)
  (screenW / 2 + isoX, screenH / 2 + isoY)

/-- Screen-to-world inverse projection (camera.rs lines 44-53). -/
def GameCamera.screenToWorld (cam : GameCamera) (screenW screenH screenX screenY : ℚ) : ℚ × ℚ :=
  let relScreenX := screenX - screenW / 2
  let relScreenY := screenY - screenH / 2
  let worldX := (relScreenX / (TILE_WIDTH / 2) + relScreenY / (TILE_HEIGHT / 2)) / 2
  let worldY := (relScreenY / (TILE_HEIGHT / 2) - relScreenX / (TILE_WIDTH / 2)) / 2
  (worldX + cam.x, worldY + cam.y)

/-! ## Combat rules (src/combat.rs) -/

inductive WeaponType where
  | Sword
  | Axe
  | Mace
deriving DecidableEq

inductive ArmorType where
  | Leather
  | Chainmail
  | Platemail
deriving DecidableEq

inductive Item where
  | Weapon : WeaponType → Item
  | Armor : ArmorType → Item
deriving DecidableEq

def WeaponType.name : WeaponType → String
  | .Sword => "Sword"
  | .Axe => "Axe"
  | .Mace => "Mace"

def ArmorType.name : ArmorType → String
  | .Leather => "Leather Armor"
  | .Chainmail => "Chainmail"
  | .Platemail => "Platemail"

def Item.name : Item → String
  | .Weapon w => w.name
  | .Armor a => a.name

def ArmorType.damageReduction : ArmorType → ℤ
  | .Leather => 1
  | .Chainmail => 2
  | .Platemail => 4

/-- combat.rs lines 97-101: `max(base - reduction, 1)`. -/
def calculateDamage (baseDamage : ℤ) (armor : Option ArmorType) : ℤ :=
  let reduction := (armor.map ArmorType.damageReduction).getD 0
  max (baseDamage - reduction) 1

/-! ## Inventory (src/inventory.rs) -/

def INVENTORY_SIZE : ℕ := 8

structure Inventory where
  items : List Item
deriving DecidableEq

def Inventory.new : Inventory := ⟨[]⟩

/-- inventory.rs lines 18-25; the `&mut self` Rust method is embedded as
returning the success flag together with the updated inventory. -/
def Inventory.addItem (inv : Inventory) (item : Item) : Bool × Inventory :=
  if inv.items.length < INVENTORY_SIZE then (true, ⟨inv.items ++ [item]⟩)
  else (false, inv)

/-- inventory.rs lines 27-33. -/
def Inventory.removeItem (inv : Inventory) (index : ℕ) : Option Item × Inventory :=
  match inv.items.get? index with
  | some it => (some it, ⟨inv.items.eraseIdx index⟩)
  | none => (none, inv)

def Inventory.isFull (inv : Inventory) : Bool := INVENTORY_SIZE ≤ inv.items.length

def Inventory.count (inv : Inventory) : ℕ := inv.items.length

/-- Folding `add_item` over a list of items (used to express the
"add 9 items to an empty inventory" scenario). -/
def Inventory.addMany (inv : Inventory) (l : List Item) : Inventory :=
  l.foldl (fun i it => (i.addItem it).2) inv

/-! ## Player (src/player.rs) -/

inductive Direction where
  | UpLeft
  | UpRight
  | DownLeft
  | DownRight
deriving DecidableEq

structure Player where
  x : ℚ
  y : ℚ
  health : ℤ
  maxHealth : ℤ
  weapon : WeaponType
  armor : Option ArmorType
  inventory : Inventory
  attackCooldown : ℚ
  regenTimer : ℚ
  facing : Direction
deriving DecidableEq

def Player.new (x y : ℚ) : Player :=
  { x := x, y := y, health := 50, maxHealth := 50, weapon := .Sword, armor := none,
    inventory := Inventory.new, attackCooldown := 0, regenTimer := 0, facing := .UpRight }

/-- player.rs lines 150-155: the inlined armor reduction with the 1-HP
floor, then clamping health at 0. -/
def Player.takeDamage (p : Player) (rawDamage : ℤ) : Player :=
  let reduction := (p.armor.map ArmorType.damageReduction).getD 0
  let damage := max (rawDamage - reduction) 1
  { p with health := max (p.health - damage) 0 }

/-- player.rs lines 157-170. -/
def Player.equipItem (p : Player) (item : Item) : Option Item × Player :=
  match item with
  | .Weapon w => (some (.Weapon p.weapon), { p with weapon := w })
  | .Armor a => (p.armor.map Item.Armor, { p with armor := some a })

def Player.canAttack (p : Player) : Bool := p.attackCooldown ≤ 0

def Player.attack (p : Player) : Player := { p with attackCooldown := 3 / 10 }

/-- Snapshot of the host input state (macroquad key/mouse polling) for one
frame: held keys, pressed-edge keys, mouse state and viewport size. -/
structure Input where
  wDown : Bool
  sDown : Bool
  aDown : Bool
  dDown : Bool
  upDown : Bool
  downDown : Bool
  leftDown : Bool
  rightDown : Bool
  pressedI : Bool
  pressedEscape : Bool
  pressedSpace : Bool
  pressedEnter : Bool
  mousePressed : Bool
  mouseX : ℚ
  mouseY : ℚ
  screenW : ℚ
  screenH : ℚ
deriving DecidableEq

/-- An input frame with no keys held or pressed and no mouse click. -/
def Input.idle : Input :=
  { wDown := false, sDown := false, aDown := false, dDown := false, upDown := false,
    downDown := false, leftDown := false, rightDown := false, pressedI := false,
    pressedEscape := false, pressedSpace := false, pressedEnter := false,
    mousePressed := false, mouseX := 0, mouseY := 0, screenW := 1280, screenH := 720 }

/-- player.rs lines 75-136 (`Player::update`): WASD movement with
normalization, facing update, attack-cooldown countdown and health
regeneration.  The host `f32::sqrt` used to normalize the movement vector
is abstracted as the parameter `sqrtApprox`; it is applied only to the
squared length of the key-derived movement vector. -/
def Player.update (sqrtApprox : ℚ → ℚ) (input : Input) (dt : ℚ) (p : Player) : Player :=
  let speed : ℚ := 5
  let d0 : ℚ × ℚ := (0, 0)
  let d1 := if input.wDown || input.upDown then (d0.1 - 1, d0.2 - 1) else d0
  let d2 := if input.sDown || input.downDown then (d1.1 + 1, d1.2 + 1) else d1
  let d3 := if input.aDown || input.leftDown then (d2.1 - 1, d2.2 + 1) else d2
  let d4 := if input.dDown || input.rightDown then (d3.1 + 1, d3.2 - 1) else d3
  let len := sqrtApprox (d4.1 * d4.1 + d4.2 * d4.2)
  let moved := if len > 0 then (d4.1 / len, d4.2 / len) else d4
  let facing :=
    if len > 0 then
      if moved.1 < 0 then (if moved.2 < 0 then Direction.UpLeft else Direction.DownLeft)
      else (if moved.2 < 0 then Direction.UpRight else Direction.DownRight)
    else p.facing
  let cooldown := if p.attackCooldown > 0 then p.attackCooldown - dt else p.attackCooldown
  let hr : ℤ × ℚ :=
    if p.health < p.maxHealth then
      let rt := p.regenTimer + dt
      if rt ≥ 1 then (min (p.health + 1) p.maxHealth, rt - 1) else (p.health, rt)
    else (p.health, p.regenTimer)
  { p with
    x := p.x + moved.1 * speed * dt
    y := p.y + moved.2 * speed * dt
    facing := facing
    attackCooldown := cooldown
    health := hr.1
    regenTimer := hr.2 }

/-- Iterate `Player::update` a number of frames with a fixed input and
frame time. -/
def Player.stepN (sqrtApprox : ℚ → ℚ) (input : Input) (dt : ℚ) : ℕ → Player → Player
  | 0, p => p
  | n + 1, p => (Player.stepN sqrtApprox input dt n p).update sqrtApprox input dt

/-- A trivial instantiation of the abstract square-root parameter, used
where the movement vector is zero and the value is irrelevant. -/
def sqrtZero : ℚ → ℚ := fun _ => 0

/-- The C6 scenario start state: health 40 of 50, regen timer 0. -/
def p40 : Player := { Player.new 0 0 with health := 40 }

/-! ## Terrain (src/world.rs) and monsters (src/monsters.rs) -/

inductive Terrain where
  | Grass
  | Desert
  | Snow
deriving DecidableEq

inductive MonsterType where
  | Goblin
  | Ogre
  | Orc
  | Wyrm
  | SnowGoblin
  | Yeti
deriving DecidableEq

def MonsterType.maxHealth : MonsterType → ℤ
  | .Goblin => 10
  | .Ogre => 30
  | .Orc => 20
  | .Wyrm => 50
  | .SnowGoblin => 10
  | .Yeti => 30

def MonsterType.baseDamage : MonsterType → ℤ
  | .Goblin => 5
  | .Ogre => 8
  | .Orc => 6
  | .Wyrm => 10
  | .SnowGoblin => 5
  | .Yeti => 8

def MonsterType.forTerrain : Terrain → List MonsterType
  | .Grass => [.Goblin, .Ogre]
  | .Desert => [.Orc, .Wyrm]
  | .Snow => [.SnowGoblin, .Yeti]

/-- The global `macroquad::rand` RNG state, embedded as an explicit stream
of naturals that is consumed from the front. -/
abbrev RNG : Type := List ℕ

/-- One draw of `rand::gen_range(lo, hi)` on integers: a value in
`[lo, hi)` together with the advanced RNG state. -/
def genRange (lo hi : ℕ) (rng : RNG) : ℕ × RNG :=
  (lo + (List.headD rng 0) % (hi - lo), List.tail rng)

/-- monsters.rs lines 68-72: pick uniformly from the two species allowed
on the terrain.  `gen_range(0, types.len())` is always in bounds, so the
`getD` default is never selected. -/
def MonsterType.randomForTerrain (terrain : Terrain) (rng : RNG) : MonsterType × RNG :=
  let types := MonsterType.forTerrain terrain
  let r := genRange 0 types.length rng
  (types.getD r.1 .Goblin, r.2)

structure Monster where
  x : ℚ
  y : ℚ
  health : ℤ
  maxHealth : ℤ
  monsterType : MonsterType
  attackCooldown : ℚ
  speed : ℚ
deriving DecidableEq

/-- monsters.rs lines 86-97. -/
def Monster.new (x y : ℚ) (monsterType : MonsterType) : Monster :=
  { x := x, y := y, health := monsterType.maxHealth, maxHealth := monsterType.maxHealth,
    monsterType := monsterType, attackCooldown := 0, speed := 4 }

/-- monsters.rs lines 131-133. -/
def Monster.takeDamage (m : Monster) (damage : ℤ) : Monster :=
  { m with health := max (m.health - damage) 0 }

/-- monsters.rs lines 127-129: monster damage to the player goes through
the shared `calculate_damage`. -/
def Monster.calculateDamage (m : Monster) (p : Player) : ℤ :=
  DiabloClone.calculateDamage m.monsterType.baseDamage p.armor

/-! ## Ground items and floating text (src/inventory.rs, src/main.rs) -/

structure GroundItem where
  x : ℚ
  y : ℚ
  item : Item
deriving DecidableEq

structure FloatingText where
  text : String
  worldX : ℚ
  worldY : ℚ
  offsetY : ℚ
  lifetime : ℚ
  maxLifetime : ℚ
deriving DecidableEq

/-- main.rs lines 34-43. -/
def FloatingText.new (text : String) (worldX worldY : ℚ) : FloatingText :=
  { text := text, worldX := worldX, worldY := worldY, offsetY := 0, lifetime := 1,
    maxLifetime := 1 }

/-! ## Game state and chunk spawner (src/main.rs) -/

inductive GameState where
  | Playing
  | Inventory
  | GameOver
deriving DecidableEq

structure Game where
  state : GameState
  player : Player
  camera : GameCamera
  monsters : List Monster
  groundItems : List GroundItem
  spawnedChunks : Finset (ℤ × ℤ)
  floatingTexts : List FloatingText
  rng : RNG
deriving DecidableEq

def CHUNK_SIZE : ℤ := 8

def SPAWN_RANGE : ℤ := 3

/-- main.rs line 126: `((chunk_x.wrapping_mul(374761393)) ^
(chunk_y.wrapping_mul(668265263))) as u32`.  An `i32` `wrapping_mul`
followed by the bit-reinterpreting cast `as u32` is exactly the low 32
bits of the mathematical product, i.e. reduction modulo `2^32`. -/
def chunkHash (chunkX chunkY : ℤ) : ℕ :=
  ((chunkX * 374761393) % 4294967296).toNat ^^^ ((chunkY * 668265263) % 4294967296).toNat

/-- Spawn x-coordinate for a chunk (main.rs lines 134-141): chunk center
plus the hash-derived in-chunk offset. -/
def spawnPosX (chunkX chunkY : ℤ) : ℚ :=
  let worldX : ℚ := ((chunkX * CHUNK_SIZE : ℤ) : ℚ) + ((CHUNK_SIZE : ℚ) / 2)
  let offsetX : ℚ := (((chunkHash chunkX chunkY >>> 8) % CHUNK_SIZE.toNat : ℕ) : ℚ)
    - ((CHUNK_SIZE : ℚ) / 2)
  worldX + offsetX

/-- Spawn y-coordinate for a chunk (main.rs lines 135-142). -/
def spawnPosY (chunkX chunkY : ℤ) : ℚ :=
  let worldY : ℚ := ((chunkY * CHUNK_SIZE : ℤ) : ℚ) + ((CHUNK_SIZE : ℚ) / 2)
  let offsetY : ℚ := (((chunkHash chunkX chunkY >>> 16) % CHUNK_SIZE.toNat : ℕ) : ℚ)
    - ((CHUNK_SIZE : ℚ) / 2)
  worldY + offsetY

/-- main.rs lines 119-154 (`Game::spawn_chunk`).  The external Perlin
terrain sampler `World::get_terrain_at` is passed in as `terrainAt`. -/
def Game.spawnChunk (terrainAt : ℚ → ℚ → Terrain) (chunkX chunkY : ℤ) (g : Game) : Game :=
  if (chunkX, chunkY) ∈ g.spawnedChunks then g
  else
    let g1 := { g with spawnedChunks := insert (chunkX, chunkY) g.spawnedChunks }
    let hash := chunkHash chunkX chunkY
    if hash % 5 ≠ 0 then g1
    else
      let spawnX := spawnPosX chunkX chunkY
      let spawnY := spawnPosY chunkX chunkY
      if |spawnX| < 5 ∧ |spawnY| < 5 then g1
      else
        let terrain := terrainAt spawnX spawnY
        let mt := MonsterType.randomForTerrain terrain g1.rng
        { g1 with monsters := g1.monsters ++ [Monster.new spawnX spawnY mt.1], rng := mt.2 }

/-- main.rs lines 108-117: spawn every chunk within `SPAWN_RANGE` of the
player's current chunk (rows outer, columns inner). -/
def Game.spawnMonstersAroundPlayer (terrainAt : ℚ → ℚ → Terrain) (g : Game) : Game :=
  let playerChunkX : ℤ := ⌊g.player.x / ((CHUNK_SIZE : ℚ))⌋
  let playerChunkY : ℤ := ⌊g.player.y / ((CHUNK_SIZE : ℚ))⌋
  (List.range (2 * SPAWN_RANGE.toNat + 1)).foldl (fun gy dy =>
    (List.range (2 * SPAWN_RANGE.toNat + 1)).foldl (fun gx dx =>
      gx.spawnChunk terrainAt (playerChunkX - SPAWN_RANGE + (dx : ℤ))
        (playerChunkY - SPAWN_RANGE + (dy : ℤ))) gy) g

/-- main.rs lines 87-106 (`Game::new`): fresh player at the origin, empty
collections, then the initial spawn pass.  The initial RNG state of the
process is a parameter. -/
def Game.new (terrainAt : ℚ → ℚ → Terrain) (rng : RNG) : Game :=
  let g : Game :=
    { state := .Playing, player := Player.new 0 0, camera := GameCamera.new, monsters := [],
      groundItems := [], spawnedChunks := ∅, floatingTexts := [], rng := rng }
  g.spawnMonstersAroundPlayer terrainAt

/-! ## Item pickup (src/main.rs `check_item_pickup`) -/

def PICKUP_RANGE : ℚ := 1 / 2

/-- main.rs lines 286-291: proximity test `sqrt(dx*dx+dy*dy) <= 0.5`,
embedded in the equivalent squared form (real square root is monotone and
the range is nonnegative). -/
def inPickupRange (px py : ℚ) (gi : GroundItem) : Bool :=
  decide ((gi.x - px) * (gi.x - px) + (gi.y - py) * (gi.y - py)
    ≤ PICKUP_RANGE * PICKUP_RANGE)

/-- First pass of main.rs lines 282-297: walk the enumerated ground items,
try `add_item` on each in-range item (the inventory mutates as the loop
runs), and record index and name of each successful pickup. -/
def pickupScan (px py : ℚ) : Inventory → List (ℕ × String) → List (ℕ × GroundItem) →
    Inventory × List (ℕ × String)
  | inv, picked, [] => (inv, picked)
  | inv, picked, (i, gi) :: rest =>
    if inPickupRange px py gi then
      match inv.addItem gi.item with
      | (true, inv2) => pickupScan px py inv2 (picked ++ [(i, gi.item.name)]) rest
      | (false, inv2) => pickupScan px py inv2 picked rest
    else pickupScan px py inv picked rest

/-- Second pass of main.rs lines 299-308: for each recorded pickup (fed in
reverse index order), remove the ground item at that index and push a
floating text at the player position. -/
def pickupApply (px py : ℚ) : List GroundItem → List FloatingText → List (ℕ × String) →
    List GroundItem × List FloatingText
  | gis, fts, [] => (gis, fts)
  | gis, fts, (i, nm) :: rest =>
    pickupApply px py (gis.eraseIdx i)
      (fts ++ [FloatingText.new ("Picked up " ++ nm ++ "!") px py]) rest

/-- main.rs lines 282-309 (`Game::check_item_pickup`). -/
def Game.checkItemPickup (g : Game) : Game :=
  let s := pickupScan g.player.x g.player.y g.player.inventory [] g.groundItems.enum
  let a := pickupApply g.player.x g.player.y g.groundItems g.floatingTexts s.2.reverse
  { g with
    player := { g.player with inventory := s.1 }
    groundItems := a.1
    floatingTexts := a.2 }

/-! ## Non-playing update steps (src/main.rs, src/inventory.rs) -/

/-- inventory.rs lines 63-99 (`get_clicked_slot`): hit-test of the mouse
position against the 8 slots of the inventory panel; `none` when the
mouse button was not pressed this frame. -/
def getClickedSlot (input : Input) : Option ℕ :=
  if !input.mousePressed then none
  else
    let panelW : ℚ := 400
    let panelH : ℚ := 500
    let panelX := input.screenW / 2 - panelW / 2
    let panelY := input.screenH / 2 - panelH / 2
    let slotSize : ℚ := 50
    let slotPadding : ℚ := 10
    let slotsPerRow : ℕ := 4
    let startX := panelX + 20
    let startY := panelY + 200
    (List.range INVENTORY_SIZE).find? (fun i =>
      let row := i / slotsPerRow
      let col := i % slotsPerRow
      let slotX := startX + (col : ℚ) * (slotSize + slotPadding)
      let slotY := startY + (row : ℚ) * (slotSize + slotPadding)
      decide (slotX ≤ input.mouseX) && decide (input.mouseX ≤ slotX + slotSize) &&
        decide (slotY ≤ input.mouseY) && decide (input.mouseY ≤ slotY + slotSize))

/-- main.rs lines 205-221 (`Game::update_inventory`): toggle back to
Playing on I/Escape, otherwise route one click to the equip action
(remove the clicked item, equip it, re-insert the displaced item). -/
def Game.updateInventory (input : Input) (g : Game) : Game :=
  if input.pressedI || input.pressedEscape then { g with state := .Playing }
  else
    match getClickedSlot input with
    | none => g
    | some slotIdx =>
      match g.player.inventory.removeItem slotIdx with
      | (none, _) => g
      | (some item, inv2) =>
        let p1 := { g.player with inventory := inv2 }
        let r := p1.equipItem item
        match r.1 with
        | none => { g with player := r.2 }
        | some oldItem =>
          { g with player := { r.2 with inventory := (r.2.inventory.addItem oldItem).2 } }

/-- main.rs lines 223-228 (`Game::update_game_over`): on Space/Enter the
game restarts via `Game::new`.  The restart constructs `World::new(12345)`
afresh, which denotes the same terrain sampler as the current world (every
world in the program is built from seed 12345), and the global RNG simply
continues — hence the same `terrainAt` and `g.rng` are passed on. -/
def Game.updateGameOver (terrainAt : ℚ → ℚ → Terrain) (input : Input) (g : Game) : Game :=
  if input.pressedSpace || input.pressedEnter then Game.new terrainAt g.rng else g

/-- main.rs lines 156-162 (`Game::update`): dispatch on the game state.
The Playing-state step (main.rs lines 164-203) involves the host clock,
camera smoothing and monster AI and is settled against its components, so
it is abstracted as the parameter `stepPlaying`; the claims below hold for
every such step because it is never invoked outside the Playing state. -/
def Game.update (terrainAt : ℚ → ℚ → Terrain) (stepPlaying : Game → Game) (input : Input)
    (g : Game) : Game :=
  match g.state with
  | .Playing => stepPlaying g
  | .Inventory => g.updateInventory input
  | .GameOver => g.updateGameOver terrainAt input

/-! ## Concrete instances used by witnesses -/

/-- A constant terrain sampler used to instantiate the abstract Perlin
parameter in witnesses. -/
def tGrass : ℚ → ℚ → Terrain := fun _ _ => .Grass

/-- A small concrete game state used by witnesses. -/
def gA : Game :=
  { state := .Playing, player := Player.new 0 0, camera := GameCamera.new, monsters := [],
    groundItems := [], spawnedChunks := ∅, floatingTexts := [], rng := [0] }

/-- A second concrete game state with the same RNG but different monsters
and player position, used to witness run-independence. -/
def gB : Game :=
  { gA with monsters := [Monster.new 1 1 .Orc], player := Player.new 7 7 }

/-- A ground item at distance exactly 0.5 from the origin (the inclusive
pickup boundary of the spec scenario). -/
def giC : GroundItem := { x := 2 / 5, y := 3 / 10, item := Item.Armor .Leather }

/-- Game state for the pickup witness: player at the origin, one ground
item at the 0.5-distance boundary, empty inventory. -/
def gC : Game := { gA with groundItems := [giC] }

/-- Game state for the full-inventory witness: 8 items held, a ground
item in range. -/
def gFull : Game :=
  { gA with
    player :=
      { Player.new 0 0 with inventory := Inventory.mk (List.replicate 8 (Item.Weapon .Sword)) }
    groundItems := [{ x := 0, y := 0, item := Item.Armor .Leather }] }

/-- Game state in the Inventory screen, used by the C10 witness. -/
def gInv : Game := { gA with state := .Inventory }

/-! ## Claim theorems: C1, C4, C5 -/

/-- Claim C1: for every world coordinate pair, camera position and viewport
size, `screen_to_world (world_to_screen (x, y))` equals `(x, y)` within
tolerance `1e-3` (in the exact-arithmetic embedding the round trip is in
fact exact, which is proved first and implies the bound). -/
theorem c1_transform_round_trip (cam : GameCamera) (w h wx wy : ℚ) :
    |(cam.screenToWorld w h (cam.worldToScreen w h wx wy).1 (cam.worldToScreen w h wx wy).2).1 - wx|
      ≤ 1 / 1000 ∧
    |(cam.screenToWorld w h (cam.worldToScreen w h wx wy).1 (cam.worldToScreen w h wx wy).2).2 - wy|
      ≤ 1 / 1000 := by
  have hx :
      (cam.screenToWorld w h (cam.worldToScreen w h wx wy).1 (cam.worldToScreen w h wx wy).2).1
        = wx := by
    simp only [GameCamera.screenToWorld, GameCamera.worldToScreen, TILE_WIDTH, TILE_HEIGHT]
    ring
  have hy :
      (cam.screenToWorld w h (cam.worldToScreen w h wx wy).1 (cam.worldToScreen w h wx wy).2).2
        = wy := by
    simp only [GameCamera.screenToWorld, GameCamera.worldToScreen, TILE_WIDTH, TILE_HEIGHT]
    ring
  rw [hx, hy]
  norm_num

/-- Claim C4: `calculate_damage` returns at least 1 for every base damage
at least 1 and every armor; for Platemail and base 1 it returns exactly 1;
and the player's `take_damage` applies the same floor-of-1 rule (its health
update is exactly `max (health - calculate_damage raw armor) 0`). -/
theorem c4_damage_floor :
    (∀ (base : ℤ) (armor : Option ArmorType), 1 ≤ base → 1 ≤ calculateDamage base armor) ∧
    calculateDamage 1 (some ArmorType.Platemail) = 1 ∧
    (∀ (p : Player) (raw : ℤ),
      (p.takeDamage raw).health = max (p.health - calculateDamage raw p.armor) 0) := by
  refine ⟨?_, by decide, ?_⟩
  · intro base armor _
    exact le_max_right _ _
  · intro p raw
    rfl

/-- Witness for C4 at concrete inputs. -/
theorem c4_damage_floor_witness :
    1 ≤ calculateDamage 1 (some ArmorType.Platemail) ∧
    ((Player.new 0 0).takeDamage 5).health
      = max ((Player.new 0 0).health - calculateDamage 5 (Player.new 0 0).armor) 0 :=
  ⟨c4_damage_floor.1 1 (some ArmorType.Platemail) (by decide),
   c4_damage_floor.2.2 (Player.new 0 0) 5⟩

/-- Claim C5: the item count never exceeds the capacity 8 (it is preserved
by `add_item`), `add_item` on a full inventory returns false and leaves the
inventory unchanged, and concretely the 9th add to an initially empty
inventory fails with the count remaining 8. -/
theorem c5_inventory_capacity :
    (∀ (inv : Inventory) (it : Item), inv.count ≤ 8 → (inv.addItem it).2.count ≤ 8) ∧
    (∀ (inv : Inventory) (it : Item), 8 ≤ inv.count → inv.addItem it = (false, inv)) ∧
    ((Inventory.new.addMany (List.replicate 8 (Item.Weapon .Sword))).addItem
        (Item.Weapon .Sword)).1 = false ∧
    ((Inventory.new.addMany (List.replicate 8 (Item.Weapon .Sword))).addItem
        (Item.Weapon .Sword)).2.count = 8 := by
  refine ⟨?_, ?_, by decide, by decide⟩
  · intro inv it h
    simp only [Inventory.count, INVENTORY_SIZE] at h ⊢
    unfold Inventory.addItem
    split
    · rename_i hlt
      simp only [INVENTORY_SIZE] at hlt
      simp only [List.length_append, List.length_cons, List.length_nil]
      omega
    · exact h
  · intro inv it h
    simp only [Inventory.count] at h
    unfold Inventory.addItem
    rw [if_neg (by simp only [INVENTORY_SIZE]; omega)]

/-! ## Spawner lemmas and claim theorems C2, C3, C7 -/

/-- `spawn_chunk` is a no-op on an already-spawned chunk coordinate. -/
theorem Game.spawnChunk_of_mem (t : ℚ → ℚ → Terrain) (cx cy : ℤ) (g : Game)
    (h : (cx, cy) ∈ g.spawnedChunks) : g.spawnChunk t cx cy = g := by
  unfold Game.spawnChunk
  rw [if_pos h]

/-- Characterization of `spawn_chunk` on a not-yet-spawned chunk: the
coordinate is inserted, and a monster is appended exactly when the hash
gate passes and the spawn position is outside the origin-protection
square. -/
theorem Game.spawnChunk_fresh (t : ℚ → ℚ → Terrain) (cx cy : ℤ) (g : Game)
    (h : (cx, cy) ∉ g.spawnedChunks) :
    g.spawnChunk t cx cy =
      if chunkHash cx cy % 5 ≠ 0 then
        { g with spawnedChunks := insert (cx, cy) g.spawnedChunks }
      else if |spawnPosX cx cy| < 5 ∧ |spawnPosY cx cy| < 5 then
        { g with spawnedChunks := insert (cx, cy) g.spawnedChunks }
      else
        { g with
          spawnedChunks := insert (cx, cy) g.spawnedChunks
          monsters := g.monsters ++ [Monster.new (spawnPosX cx cy) (spawnPosY cx cy)
            (MonsterType.randomForTerrain
              (t (spawnPosX cx cy) (spawnPosY cx cy)) g.rng).1]
          rng := (MonsterType.randomForTerrain
            (t (spawnPosX cx cy) (spawnPosY cx cy)) g.rng).2 } := by
  unfold Game.spawnChunk
  rw [if_neg h]

/-- After any call of `spawn_chunk`, the chunk coordinate is in the set. -/
theorem Game.spawnChunk_mem (t : ℚ → ℚ → Terrain) (cx cy : ℤ) (g : Game) :
    (cx, cy) ∈ (g.spawnChunk t cx cy).spawnedChunks := by
  by_cases h : (cx, cy) ∈ g.spawnedChunks
  · rw [Game.spawnChunk_of_mem t cx cy g h]
    exact h
  · rw [Game.spawnChunk_fresh t cx cy g h]
    split_ifs <;> exact Finset.mem_insert_self _ _

/-- Claim C2: calling `spawn_chunk` twice on the same coordinate adds at
most one monster, leaves the spawned-chunks set with exactly one entry for
that coordinate, and the second call changes nothing. -/
theorem c2_chunk_spawn_idempotent (t : ℚ → ℚ → Terrain) (cx cy : ℤ) (g : Game) :
    (g.spawnChunk t cx cy).spawnChunk t cx cy = g.spawnChunk t cx cy ∧
    ((g.spawnChunk t cx cy).spawnChunk t cx cy).monsters.length ≤ g.monsters.length + 1 ∧
    (((g.spawnChunk t cx cy).spawnChunk t cx cy).spawnedChunks.filter
      (fun c => c = (cx, cy))).card = 1 := by
  have hmem := Game.spawnChunk_mem t cx cy g
  have hsecond := Game.spawnChunk_of_mem t cx cy (g.spawnChunk t cx cy) hmem
  refine ⟨hsecond, ?_, ?_⟩
  · rw [hsecond]
    by_cases h : (cx, cy) ∈ g.spawnedChunks
    · rw [Game.spawnChunk_of_mem t cx cy g h]
      omega
    · rw [Game.spawnChunk_fresh t cx cy g h]
      split_ifs <;> simp
  · rw [hsecond, Finset.filter_eq', if_pos hmem]
    exact Finset.card_singleton _

/-- Claim C3: on a not-yet-spawned chunk, the outcome of `spawn_chunk`
(spawn decision, species and position of the appended monster, and the
advanced RNG) depends only on the chunk coordinate, the terrain sampler
and the RNG state — two runs from states with equal RNG agree — and the
hash gate is `((cx * 374761393) XOR (cy * 668265263)) mod 5 == 0` with
wrapping multiplication. -/
theorem c3_deterministic_spawn (t : ℚ → ℚ → Terrain) (cx cy : ℤ) (g1 g2 : Game)
    (h1 : (cx, cy) ∉ g1.spawnedChunks) (h2 : (cx, cy) ∉ g2.spawnedChunks)
    (hr : g1.rng = g2.rng) :
    (g1.spawnChunk t cx cy).monsters.drop g1.monsters.length
      = (g2.spawnChunk t cx cy).monsters.drop g2.monsters.length ∧
    (g1.spawnChunk t cx cy).rng = (g2.spawnChunk t cx cy).rng ∧
    (chunkHash cx cy % 5 ≠ 0 → (g1.spawnChunk t cx cy).monsters = g1.monsters) ∧
    (chunkHash cx cy % 5 = 0 → ¬(|spawnPosX cx cy| < 5 ∧ |spawnPosY cx cy| < 5) →
      (g1.spawnChunk t cx cy).monsters
        = g1.monsters ++ [Monster.new (spawnPosX cx cy) (spawnPosY cx cy)
            (MonsterType.randomForTerrain
              (t (spawnPosX cx cy) (spawnPosY cx cy)) g1.rng).1]) := by
  rw [Game.spawnChunk_fresh t cx cy g1 h1, Game.spawnChunk_fresh t cx cy g2 h2, hr]
  by_cases hgate : chunkHash cx cy % 5 ≠ 0
  · rw [if_pos hgate, if_pos hgate]
    exact ⟨by simp [List.drop_length], rfl, fun _ => rfl, fun h5 _ => absurd h5 hgate⟩
  · rw [if_neg hgate, if_neg hgate]
    by_cases hsq : |spawnPosX cx cy| < 5 ∧ |spawnPosY cx cy| < 5
    · rw [if_pos hsq, if_pos hsq]
      exact ⟨by simp [List.drop_length], rfl, fun hg => absurd hg hgate,
        fun _ hns => absurd hsq hns⟩
    · rw [if_neg hsq, if_neg hsq]
      refine ⟨?_, rfl, fun hg => absurd hg hgate, fun _ _ => rfl⟩
      dsimp only
      rw [List.drop_left, List.drop_left]

/-- Witness for C3: two different game states with equal RNG spawn the
same monster list on chunk (5, 0). -/
theorem c3_deterministic_spawn_witness :
    (gA.spawnChunk tGrass 5 0).monsters.drop gA.monsters.length
      = (gB.spawnChunk tGrass 5 0).monsters.drop gB.monsters.length :=
  (c3_deterministic_spawn tGrass 5 0 gA gB (by decide) (by decide) rfl).1

/-- Claim C7: for a chunk whose hash permits a spawn, the spawn is
rejected (monster list unchanged) exactly when the computed position lies
in the origin-protection square `|x| < 5 ∧ |y| < 5` (main.rs line 145),
and outside that square the monster is always created at that position. -/
theorem c7_spawn_rejection (t : ℚ → ℚ → Terrain) (cx cy : ℤ) (g : Game)
    (hgate : chunkHash cx cy % 5 = 0) (hfresh : (cx, cy) ∉ g.spawnedChunks) :
    ((g.spawnChunk t cx cy).monsters = g.monsters ↔
      |spawnPosX cx cy| < 5 ∧ |spawnPosY cx cy| < 5) ∧
    (¬(|spawnPosX cx cy| < 5 ∧ |spawnPosY cx cy| < 5) →
      (g.spawnChunk t cx cy).monsters
        = g.monsters ++ [Monster.new (spawnPosX cx cy) (spawnPosY cx cy)
            (MonsterType.randomForTerrain
              (t (spawnPosX cx cy) (spawnPosY cx cy)) g.rng).1]) := by
  rw [Game.spawnChunk_fresh t cx cy g hfresh, if_neg (fun hn => hn hgate)]
  by_cases hsq : |spawnPosX cx cy| < 5 ∧ |spawnPosY cx cy| < 5
  · rw [if_pos hsq]
    exact ⟨⟨fun _ => hsq, fun _ => rfl⟩, fun hns => absurd hsq hns⟩
  · rw [if_neg hsq]
    refine ⟨⟨fun hmon => ?_, fun hs => absurd hs hsq⟩, fun _ => rfl⟩
    have hlen := congrArg List.length hmon
    simp at hlen

/-- Witness for C7: chunk (0, 0) passes the hash gate, its spawn position
(0, 0) is inside the protected square, and the spawn is rejected. -/
theorem c7_spawn_rejection_witness :
    (gA.spawnChunk tGrass 0 0).monsters = gA.monsters ↔
      |spawnPosX 0 0| < 5 ∧ |spawnPosY 0 0| < 5 :=
  (c7_spawn_rejection tGrass 0 0 gA (by decide) (by decide)).1

/-- Witness for C5 at concrete inputs. -/
theorem c5_inventory_capacity_witness :
    ((Inventory.mk []).addItem (Item.Weapon .Mace)).2.count ≤ 8 ∧
    (Inventory.mk (List.replicate 8 (Item.Weapon .Sword))).addItem (Item.Armor .Leather)
      = (false, Inventory.mk (List.replicate 8 (Item.Weapon .Sword))) :=
  ⟨c5_inventory_capacity.1 (Inventory.mk []) (Item.Weapon .Mace) (by decide),
   c5_inventory_capacity.2.1 (Inventory.mk (List.replicate 8 (Item.Weapon .Sword)))
     (Item.Armor .Leather) (by decide)⟩

/-! ## Regen lemmas and claim C6 -/

/-- With an idle input frame the movement vector is zero, so
`Player::update` leaves position, facing and a ready (zero) attack
cooldown unchanged and performs exactly the regen bookkeeping. -/
theorem Player.update_idle_eq (dt : ℚ) (p : Player) (hc : p.attackCooldown = 0)
    (hlt : p.health < p.maxHealth) :
    (1 ≤ p.regenTimer + dt →
      p.update sqrtZero Input.idle dt =
        { p with health := min (p.health + 1) p.maxHealth
                 regenTimer := p.regenTimer + dt - 1 }) ∧
    (¬ 1 ≤ p.regenTimer + dt →
      p.update sqrtZero Input.idle dt = { p with regenTimer := p.regenTimer + dt }) := by
  constructor <;> intro h <;>
    simp [Player.update, Input.idle, sqrtZero, hc, hlt, h, ge_iff_le]

/-- Closed form for the C6 scenario: with 1ms idle frames, after `n` steps
the player has gained one HP per full 1000 steps and the regen timer holds
the remaining fraction. -/
theorem stepN_p40_fields (n : ℕ) (hn : n ≤ 9999) :
    (Player.stepN sqrtZero Input.idle (1 / 1000) n p40).health = 40 + ((n / 1000 : ℕ) : ℤ) ∧
    (Player.stepN sqrtZero Input.idle (1 / 1000) n p40).regenTimer
      = ((n % 1000 : ℕ) : ℚ) / 1000 ∧
    (Player.stepN sqrtZero Input.idle (1 / 1000) n p40).maxHealth = 50 ∧
    (Player.stepN sqrtZero Input.idle (1 / 1000) n p40).attackCooldown = 0 := by
  induction n with
  | zero =>
    refine ⟨?_, ?_, ?_, ?_⟩ <;> norm_num [Player.stepN, p40, Player.new]
  | succ n ih =>
    obtain ⟨ihh, iht, ihm, ihc⟩ := ih (by omega)
    have hlt : (Player.stepN sqrtZero Input.idle (1 / 1000) n p40).health
        < (Player.stepN sqrtZero Input.idle (1 / 1000) n p40).maxHealth := by
      rw [ihh, ihm]; omega
    have hspec := Player.update_idle_eq (1 / 1000)
      (Player.stepN sqrtZero Input.idle (1 / 1000) n p40) ihc hlt
    have hstep : Player.stepN sqrtZero Input.idle (1 / 1000) (n + 1) p40
        = (Player.stepN sqrtZero Input.idle (1 / 1000) n p40).update
            sqrtZero Input.idle (1 / 1000) := rfl
    rw [hstep]
    by_cases h999 : n % 1000 = 999
    · have hcross : (1 : ℚ) ≤ (Player.stepN sqrtZero Input.idle (1 / 1000) n p40).regenTimer
          + 1 / 1000 := by
        rw [iht, h999]; norm_num
      rw [hspec.1 hcross]
      refine ⟨?_, ?_, by simpa using ihm, by simpa using ihc⟩
      · show min ((Player.stepN sqrtZero Input.idle (1 / 1000) n p40).health + 1)
            (Player.stepN sqrtZero Input.idle (1 / 1000) n p40).maxHealth = _
        rw [ihh, ihm]
        have hdiv : (n + 1) / 1000 = n / 1000 + 1 := by omega
        have hle : (40 + ((n / 1000 : ℕ) : ℤ) + 1) ≤ 50 := by
          have : n / 1000 ≤ 9 := by omega
          omega
        rw [min_eq_left hle, hdiv]
        push_cast
        ring
      · show (Player.stepN sqrtZero Input.idle (1 / 1000) n p40).regenTimer + 1 / 1000 - 1 = _
        rw [iht, h999]
        have hmod : (n + 1) % 1000 = 0 := by omega
        rw [hmod]
        norm_num
    · have hcross : ¬ (1 : ℚ) ≤ (Player.stepN sqrtZero Input.idle (1 / 1000) n p40).regenTimer
          + 1 / 1000 := by
        rw [iht]
        have hm : n % 1000 ≤ 998 := by omega
        have hm2 : ((n % 1000 : ℕ) : ℚ) ≤ 998 := by exact_mod_cast hm
        intro hcon
        have : ((n % 1000 : ℕ) : ℚ) / 1000 + 1 / 1000 < 1 := by
          rw [div_add_div_same]
          rw [div_lt_one (by norm_num)]
          linarith
        linarith
      rw [hspec.2 hcross]
      refine ⟨?_, ?_, by simpa using ihm, by simpa using ihc⟩
      · show (Player.stepN sqrtZero Input.idle (1 / 1000) n p40).health = _
        rw [ihh]
        have hdiv : (n + 1) / 1000 = n / 1000 := by omega
        rw [hdiv]
      · show (Player.stepN sqrtZero Input.idle (1 / 1000) n p40).regenTimer + 1 / 1000 = _
        rw [iht]
        have hmod : (n + 1) % 1000 = n % 1000 + 1 := by omega
        rw [hmod]
        push_cast
        ring

/-- Counterexample to claim C6 as stated: in the exact-arithmetic
embedding of `Player::update`, after 2999 idle 1ms steps from health 40/50
the health is 42 (ticks at steps 1000 and 2000), not the claimed 41. -/
theorem c6_regen_timing_counterexample :
    (Player.stepN sqrtZero Input.idle (1 / 1000) 2999 p40).health = 42 ∧
    ¬ (Player.stepN sqrtZero Input.idle (1 / 1000) 2999 p40).health = 41 := by
  have h := (stepN_p40_fields 2999 (by norm_num)).1
  rw [h]
  norm_num

/-- Claim C6 (amended): whenever the regen accumulator crosses 1.0s the
player gains exactly 1 HP (capped at max) and 1.0 is subtracted from the
accumulator, carrying partial progress over; in the concrete scenario
(health 40/50, timer 0, 1ms idle steps) health is 42 after 2.999s — ticks
at 1.000s and 2.000s — and 43 after a further 0.002s (tick at 3.000s). -/
theorem c6_regen_carry_over (sqrtApprox : ℚ → ℚ) (input : Input) (dt : ℚ) (p : Player)
    (hlt : p.health < p.maxHealth) (hcross : 1 ≤ p.regenTimer + dt) :
    (p.update sqrtApprox input dt).health = min (p.health + 1) p.maxHealth ∧
    (p.update sqrtApprox input dt).regenTimer = p.regenTimer + dt - 1 ∧
    (Player.stepN sqrtZero Input.idle (1 / 1000) 2999 p40).health = 42 ∧
    (Player.stepN sqrtZero Input.idle (1 / 1000) 3001 p40).health = 43 := by
  refine ⟨?_, ?_, ?_, ?_⟩
  · simp only [Player.update]
    rw [if_pos hlt, if_pos (show p.regenTimer + dt ≥ 1 from hcross)]
  · simp only [Player.update]
    rw [if_pos hlt, if_pos (show p.regenTimer + dt ≥ 1 from hcross)]
  · have h := (stepN_p40_fields 2999 (by norm_num)).1
    rw [h]
    norm_num
  · have h := (stepN_p40_fields 3001 (by norm_num)).1
    rw [h]
    norm_num

/-- Witness for C6 (amended) at a concrete crossing step. -/
theorem c6_regen_carry_over_witness :
    (p40.update sqrtZero Input.idle 1).health = min (p40.health + 1) p40.maxHealth :=
  (c6_regen_carry_over sqrtZero Input.idle 1 p40 (by norm_num [p40, Player.new])
    (by norm_num [p40, Player.new])).1

/-! ## Pickup lemmas and claims C8, C9 -/

/-- Erasing at a later index leaves earlier lookups unchanged. -/
theorem getElem?_eraseIdx_of_lt {α : Type} (l : List α) (i j : ℕ) (h : j < i) :
    (l.eraseIdx i)[j]? = l[j]? := by
  induction l generalizing i j with
  | nil => simp
  | cons a t ih =>
    cases i with
    | zero => omega
    | succ i =>
      cases j with
      | zero => simp
      | succ j =>
        simp only [List.eraseIdx_cons_succ, List.getElem?_cons_succ]
        exact ih i j (by omega)

/-- Membership survives erasure at an index holding a different value. -/
theorem mem_eraseIdx_of_getElem?_ne {α : Type} (l : List α) (i : ℕ) (v : α) (hv : v ∈ l)
    (hne : l[i]? ≠ some v) : v ∈ l.eraseIdx i := by
  induction l generalizing i with
  | nil => cases hv
  | cons a t ih =>
    cases i with
    | zero =>
      simp only [List.eraseIdx_cons_zero]
      rcases List.mem_cons.mp hv with h | h
      · exact absurd (by simp [h]) hne
      · exact h
    | succ i =>
      simp only [List.eraseIdx_cons_succ]
      rcases List.mem_cons.mp hv with h | h
      · exact List.mem_cons.mpr (Or.inl h)
      · refine List.mem_cons.mpr (Or.inr (ih i h ?_))
        simpa using hne

/-- Entries of `enumFrom` point back into the list. -/
theorem mem_enumFrom_getElem? {α : Type} (l : List α) (n : ℕ) (p : ℕ × α)
    (h : p ∈ l.enumFrom n) : n ≤ p.1 ∧ l[p.1 - n]? = some p.2 := by
  induction l generalizing n with
  | nil => cases h
  | cons a t ih =>
    rcases List.mem_cons.mp h with h | h
    · subst h
      simp
    · obtain ⟨h1, h2⟩ := ih (n + 1) h
      refine ⟨by omega, ?_⟩
      have hk : p.1 - n = (p.1 - (n + 1)) + 1 := by omega
      rw [hk, List.getElem?_cons_succ]
      exact h2

/-- The indices produced by `enumFrom` are strictly increasing. -/
theorem enumFrom_pairwise {α : Type} (l : List α) (n : ℕ) :
    (l.enumFrom n).Pairwise (fun d e : ℕ × α => d.1 < e.1) := by
  induction l generalizing n with
  | nil => exact List.Pairwise.nil
  | cons a t ih =>
    refine List.pairwise_cons.mpr ⟨?_, ih (n + 1)⟩
    intro e he
    have hm := mem_enumFrom_getElem? t (n + 1) e he
    show n < e.1
    omega

/-- Entries of `enumFrom` are elements of the underlying list. -/
theorem mem_of_mem_enumFrom {α : Type} {l : List α} {n : ℕ} {p : ℕ × α}
    (h : p ∈ l.enumFrom n) : p.2 ∈ l := by
  induction l generalizing n with
  | nil => cases h
  | cons a t ih =>
    rcases List.mem_cons.mp h with h | h
    · subst h
      exact List.mem_cons.mpr (Or.inl rfl)
    · exact List.mem_cons.mpr (Or.inr (ih h))

/-- `enumFrom` distributes over list append. -/
theorem enumFrom_append {α : Type} (l1 l2 : List α) (n : ℕ) :
    (l1 ++ l2).enumFrom n = l1.enumFrom n ++ l2.enumFrom (n + l1.length) := by
  induction l1 generalizing n with
  | nil => simp
  | cons a t ih =>
    show (n, a) :: (t ++ l2).enumFrom (n + 1)
      = (n, a) :: t.enumFrom (n + 1) ++ l2.enumFrom (n + (t.length + 1))
    rw [ih (n + 1)]
    have harith : n + 1 + t.length = n + (t.length + 1) := by omega
    rw [List.cons_append, harith]

/-- Erasing at the length of the left part removes exactly the middle
element. -/
theorem eraseIdx_append_length {α : Type} (l1 : List α) (a : α) (l2 : List α) :
    (l1 ++ a :: l2).eraseIdx l1.length = l1 ++ l2 := by
  induction l1 with
  | nil => rfl
  | cons b t ih =>
    show ((b :: (t ++ a :: l2)).eraseIdx (t.length + 1)) = b :: (t ++ l2)
    rw [List.eraseIdx_cons_succ, ih]

/-- The scan pass over out-of-range entries picks nothing. -/
theorem pickupScan_far (px py : ℚ) (en : List (ℕ × GroundItem)) :
    ∀ (inv : Inventory) (acc : List (ℕ × String)),
      (∀ e ∈ en, inPickupRange px py e.2 = false) →
      pickupScan px py inv acc en = (inv, acc) := by
  induction en with
  | nil =>
    intro inv acc _
    rfl
  | cons e rest ih =>
    intro inv acc hfar
    obtain ⟨i, gi⟩ := e
    have hstep : pickupScan px py inv acc ((i, gi) :: rest)
        = if inPickupRange px py gi then
            match inv.addItem gi.item with
            | (true, inv2) => pickupScan px py inv2 (acc ++ [(i, gi.item.name)]) rest
            | (false, inv2) => pickupScan px py inv2 acc rest
          else pickupScan px py inv acc rest := rfl
    have hf0 : inPickupRange px py gi = false := hfar (i, gi) (List.mem_cons.mpr (Or.inl rfl))
    rw [hstep, if_neg (by simp [hf0])]
    exact ih inv acc (fun e he => hfar e (List.mem_cons.mpr (Or.inr he)))

/-- The scan pass decomposes over list append. -/
theorem pickupScan_append (px py : ℚ) (en1 en2 : List (ℕ × GroundItem)) :
    ∀ (inv : Inventory) (acc : List (ℕ × String)),
      pickupScan px py inv acc (en1 ++ en2)
        = pickupScan px py (pickupScan px py inv acc en1).1
            (pickupScan px py inv acc en1).2 en2 := by
  induction en1 with
  | nil =>
    intro inv acc
    rfl
  | cons e rest ih =>
    intro inv acc
    obtain ⟨i, gi⟩ := e
    have hstepL : pickupScan px py inv acc ((i, gi) :: (rest ++ en2))
        = if inPickupRange px py gi then
            match inv.addItem gi.item with
            | (true, inv2) => pickupScan px py inv2 (acc ++ [(i, gi.item.name)]) (rest ++ en2)
            | (false, inv2) => pickupScan px py inv2 acc (rest ++ en2)
          else pickupScan px py inv acc (rest ++ en2) := rfl
    have hstepR : pickupScan px py inv acc ((i, gi) :: rest)
        = if inPickupRange px py gi then
            match inv.addItem gi.item with
            | (true, inv2) => pickupScan px py inv2 (acc ++ [(i, gi.item.name)]) rest
            | (false, inv2) => pickupScan px py inv2 acc rest
          else pickupScan px py inv acc rest := rfl
    rw [List.cons_append, hstepL, hstepR]
    by_cases hr : inPickupRange px py gi = true
    · rw [if_pos hr, if_pos hr]
      rcases hadd : inv.addItem gi.item with ⟨b, inv2⟩
      cases b
      · exact ih inv2 acc
      · exact ih inv2 (acc ++ [(i, gi.item.name)])
    · rw [if_neg hr, if_neg hr]
      exact ih inv acc

/-- The scan pass over a list whose only in-range entry sits between two
out-of-range runs picks exactly that entry (when the inventory accepts
it). -/
theorem pickupScan_single (px py : ℚ) (l1 l2 : List GroundItem) (gi : GroundItem)
    (inv : Inventory)
    (hfar1 : ∀ e ∈ l1, inPickupRange px py e = false)
    (hfar2 : ∀ e ∈ l2, inPickupRange px py e = false)
    (hr : inPickupRange px py gi = true)
    (hcount : inv.items.length < 8) :
    pickupScan px py inv [] (l1 ++ gi :: l2).enum
      = (⟨inv.items ++ [gi.item]⟩, [(l1.length, gi.item.name)]) := by
  have henum : (l1 ++ gi :: l2).enum
      = l1.enumFrom 0 ++ (gi :: l2).enumFrom (0 + l1.length) := enumFrom_append l1 (gi :: l2) 0
  rw [henum, pickupScan_append,
    pickupScan_far px py (l1.enumFrom 0) inv []
      (fun e he => hfar1 e.2 (mem_of_mem_enumFrom he))]
  have hadd : inv.addItem gi.item = (true, ⟨inv.items ++ [gi.item]⟩) := by
    unfold Inventory.addItem
    rw [if_pos (by simpa [INVENTORY_SIZE] using hcount)]
  have hstep : pickupScan px py inv [] ((0 + l1.length, gi) :: l2.enumFrom (0 + l1.length + 1))
      = if inPickupRange px py gi then
          match inv.addItem gi.item with
          | (true, inv2) =>
            pickupScan px py inv2 ([] ++ [(0 + l1.length, gi.item.name)])
              (l2.enumFrom (0 + l1.length + 1))
          | (false, inv2) => pickupScan px py inv2 [] (l2.enumFrom (0 + l1.length + 1))
        else pickupScan px py inv [] (l2.enumFrom (0 + l1.length + 1)) := rfl
  show pickupScan px py inv [] ((gi :: l2).enumFrom (0 + l1.length)) = _
  rw [show (gi :: l2).enumFrom (0 + l1.length)
      = (0 + l1.length, gi) :: l2.enumFrom (0 + l1.length + 1) from rfl]
  rw [hstep, if_pos hr, hadd]
  rw [show (match (true, (⟨inv.items ++ [gi.item]⟩ : Inventory)) with
      | (true, inv2) =>
        pickupScan px py inv2 ([] ++ [(0 + l1.length, gi.item.name)])
          (l2.enumFrom (0 + l1.length + 1))
      | (false, inv2) => pickupScan px py inv2 [] (l2.enumFrom (0 + l1.length + 1)))
      = pickupScan px py (⟨inv.items ++ [gi.item]⟩ : Inventory)
          ([] ++ [(0 + l1.length, gi.item.name)]) (l2.enumFrom (0 + l1.length + 1)) from rfl]
  rw [pickupScan_far px py (l2.enumFrom (0 + l1.length + 1)) _ _
    (fun e he => hfar2 e.2 (mem_of_mem_enumFrom he))]
  simp

/-- One recorded pickup removes exactly its index and emits one text. -/
theorem pickupApply_single (px py : ℚ) (gis : List GroundItem) (fts : List FloatingText)
    (i : ℕ) (nm : String) :
    pickupApply px py gis fts [(i, nm)]
      = (gis.eraseIdx i, fts ++ [FloatingText.new ("Picked up " ++ nm ++ "!") px py]) := rfl

/-- Every index recorded by the scan pass comes from an in-range entry of
the enumerated list (or was already in the accumulator). -/
theorem pickupScan_picked_sound (px py : ℚ) (en : List (ℕ × GroundItem)) :
    ∀ (inv : Inventory) (acc : List (ℕ × String)),
      ∀ p ∈ (pickupScan px py inv acc en).2,
        p ∈ acc ∨ ∃ gi : GroundItem, (p.1, gi) ∈ en ∧ inPickupRange px py gi = true := by
  induction en with
  | nil =>
    intro inv acc p hp
    exact Or.inl hp
  | cons e rest ih =>
    intro inv acc p hp
    obtain ⟨i, gi⟩ := e
    have hstep : pickupScan px py inv acc ((i, gi) :: rest)
        = if inPickupRange px py gi then
            match inv.addItem gi.item with
            | (true, inv2) => pickupScan px py inv2 (acc ++ [(i, gi.item.name)]) rest
            | (false, inv2) => pickupScan px py inv2 acc rest
          else pickupScan px py inv acc rest := rfl
    by_cases hr : inPickupRange px py gi = true
    · rcases hadd : inv.addItem gi.item with ⟨b, inv2⟩
      cases b
      · rw [hstep, if_pos hr, hadd] at hp
        rcases ih inv2 acc p hp with h | ⟨gi2, hmem, hrange⟩
        · exact Or.inl h
        · exact Or.inr ⟨gi2, List.mem_cons.mpr (Or.inr hmem), hrange⟩
      · rw [hstep, if_pos hr, hadd] at hp
        rcases ih inv2 (acc ++ [(i, gi.item.name)]) p hp with h | ⟨gi2, hmem, hrange⟩
        · rcases List.mem_append.mp h with h | h
          · exact Or.inl h
          · have hp2 : p = (i, gi.item.name) := List.mem_singleton.mp h
            subst hp2
            exact Or.inr ⟨gi, List.mem_cons.mpr (Or.inl rfl), hr⟩
        · exact Or.inr ⟨gi2, List.mem_cons.mpr (Or.inr hmem), hrange⟩
    · rw [hstep, if_neg hr] at hp
      rcases ih inv acc p hp with h | ⟨gi2, hmem, hrange⟩
      · exact Or.inl h
      · exact Or.inr ⟨gi2, List.mem_cons.mpr (Or.inr hmem), hrange⟩

/-- The indices recorded by the scan pass are strictly increasing. -/
theorem pickupScan_picked_pairwise (px py : ℚ) (en : List (ℕ × GroundItem)) :
    ∀ (inv : Inventory) (acc : List (ℕ × String)),
      acc.Pairwise (fun p q => p.1 < q.1) →
      (∀ p ∈ acc, ∀ e ∈ en, p.1 < e.1) →
      en.Pairwise (fun d e => d.1 < e.1) →
      (pickupScan px py inv acc en).2.Pairwise (fun p q => p.1 < q.1) := by
  induction en with
  | nil =>
    intro inv acc hacc _ _
    exact hacc
  | cons e rest ih =>
    intro inv acc hacc hlt hen
    obtain ⟨i, gi⟩ := e
    obtain ⟨hhead, hrest⟩ := List.pairwise_cons.mp hen
    have hstep : pickupScan px py inv acc ((i, gi) :: rest)
        = if inPickupRange px py gi then
            match inv.addItem gi.item with
            | (true, inv2) => pickupScan px py inv2 (acc ++ [(i, gi.item.name)]) rest
            | (false, inv2) => pickupScan px py inv2 acc rest
          else pickupScan px py inv acc rest := rfl
    rw [hstep]
    have hltrest : ∀ p ∈ acc, ∀ e ∈ rest, p.1 < e.1 := by
      intro p hp e he
      exact hlt p hp e (List.mem_cons.mpr (Or.inr he))
    by_cases hr : inPickupRange px py gi = true
    · rw [if_pos hr]
      rcases hadd : inv.addItem gi.item with ⟨b, inv2⟩
      cases b
      · exact ih inv2 acc hacc hltrest hrest
      · have hacc2 : (acc ++ [(i, gi.item.name)]).Pairwise (fun p q => p.1 < q.1) := by
          refine List.pairwise_append.mpr ⟨hacc, List.pairwise_singleton _ _, ?_⟩
          intro a ha b hb
          have hb2 : b = (i, gi.item.name) := List.mem_singleton.mp hb
          subst hb2
          exact hlt a ha (i, gi) (List.mem_cons.mpr (Or.inl rfl))
        have hlt2 : ∀ p ∈ acc ++ [(i, gi.item.name)], ∀ e ∈ rest, p.1 < e.1 := by
          intro p hp e he
          rcases List.mem_append.mp hp with h | h
          · exact hltrest p h e he
          · have hp2 : p = (i, gi.item.name) := List.mem_singleton.mp h
            subst hp2
            exact hhead e he
        exact ih inv2 (acc ++ [(i, gi.item.name)]) hacc2 hlt2 hrest
    · rw [if_neg hr]
      exact ih inv acc hacc hltrest hrest

/-- A ground item not pointed at by any processed index survives the
removal pass. -/
theorem mem_pickupApply (px py : ℚ) (v : GroundItem) (pairs : List (ℕ × String)) :
    ∀ (gis : List GroundItem) (fts : List FloatingText),
      pairs.Pairwise (fun p q => q.1 < p.1) →
      (∀ p ∈ pairs, gis[p.1]? ≠ some v) →
      v ∈ gis → v ∈ (pickupApply px py gis fts pairs).1 := by
  induction pairs with
  | nil =>
    intro gis fts _ _ hv
    exact hv
  | cons p rest ih =>
    intro gis fts hpw hne hv
    obtain ⟨i, nm⟩ := p
    obtain ⟨hhead, hrest⟩ := List.pairwise_cons.mp hpw
    show v ∈ (pickupApply px py (gis.eraseIdx i)
      (fts ++ [FloatingText.new ("Picked up " ++ nm ++ "!") px py]) rest).1
    refine ih (gis.eraseIdx i) _ hrest ?_ ?_
    · intro q hq
      have hq2 : q.1 < i := hhead q hq
      rw [getElem?_eraseIdx_of_lt gis i q.1 hq2]
      exact hne q (List.mem_cons.mpr (Or.inr hq))
    · exact mem_eraseIdx_of_getElem?_ne gis i v hv
        (hne (i, nm) (List.mem_cons.mpr (Or.inl rfl)))

/-- Claim C8: a ground item farther than 0.5 tiles from the player is
untouched by the pickup step; and an item at distance at most 0.5
(boundary inclusive) whose pickup the inventory can accept — anywhere in
the ground collection, the other items being out of range — is
transferred into the inventory, a floating text "Picked up name!" is
created anchored at the player position, and the ground item is removed
from the ground collection. -/
theorem c8_pickup_transfer (g : Game) (gi : GroundItem) (l1 l2 : List GroundItem) :
    (gi ∈ g.groundItems → inPickupRange g.player.x g.player.y gi = false →
      gi ∈ g.checkItemPickup.groundItems) ∧
    (g.groundItems = l1 ++ gi :: l2 →
      (∀ e ∈ l1, inPickupRange g.player.x g.player.y e = false) →
      (∀ e ∈ l2, inPickupRange g.player.x g.player.y e = false) →
      inPickupRange g.player.x g.player.y gi = true →
      g.player.inventory.items.length < 8 →
      g.checkItemPickup.player.inventory.items
          = g.player.inventory.items ++ [gi.item] ∧
      g.checkItemPickup.groundItems = l1 ++ l2 ∧
      g.checkItemPickup.floatingTexts = g.floatingTexts
          ++ [FloatingText.new ("Picked up " ++ gi.item.name ++ "!") g.player.x g.player.y]) := by
  constructor
  · intro hmem hfar
    show gi ∈ (pickupApply g.player.x g.player.y g.groundItems g.floatingTexts
      (pickupScan g.player.x g.player.y g.player.inventory [] g.groundItems.enum).2.reverse).1
    refine mem_pickupApply g.player.x g.player.y gi _ g.groundItems g.floatingTexts ?_ ?_ hmem
    · rw [List.pairwise_reverse]
      exact pickupScan_picked_pairwise g.player.x g.player.y g.groundItems.enum
        g.player.inventory [] List.Pairwise.nil (by intro p hp; cases hp)
        (enumFrom_pairwise g.groundItems 0)
    · intro p hp
      have hp2 := List.mem_reverse.mp hp
      rcases pickupScan_picked_sound g.player.x g.player.y g.groundItems.enum
          g.player.inventory [] p hp2 with h | ⟨gi2, hmem2, hrange2⟩
      · cases h
      · obtain ⟨_, hget⟩ := mem_enumFrom_getElem? g.groundItems 0 (p.1, gi2) hmem2
        simp only [Nat.sub_zero] at hget
        rw [hget]
        intro hcon
        have : gi2 = gi := by injection hcon
        subst this
        rw [hfar] at hrange2
        cases hrange2
  · intro hsplit hfar1 hfar2 hrange hcount
    have hscan := pickupScan_single g.player.x g.player.y l1 l2 gi g.player.inventory
      hfar1 hfar2 hrange hcount
    unfold Game.checkItemPickup
    rw [hsplit, hscan]
    dsimp only
    rw [show ([(l1.length, gi.item.name)]).reverse = [(l1.length, gi.item.name)] from rfl]
    rw [pickupApply_single]
    exact ⟨rfl, eraseIdx_append_length l1 gi l2, rfl⟩

/-- Witness for C8: the boundary scenario — player at the origin, one
ground item at (0.4, 0.3), empty inventory. -/
theorem c8_pickup_transfer_witness :
    gC.checkItemPickup.player.inventory.items
        = gC.player.inventory.items ++ [giC.item] ∧
    gC.checkItemPickup.groundItems = [] ++ [] ∧
    gC.checkItemPickup.floatingTexts = gC.floatingTexts
        ++ [FloatingText.new ("Picked up " ++ giC.item.name ++ "!") gC.player.x gC.player.y] :=
  (c8_pickup_transfer gC giC [] []).2 rfl (fun e he => absurd he (List.not_mem_nil e))
    (fun e he => absurd he (List.not_mem_nil e))
    (by simp only [inPickupRange, decide_eq_true_eq]; norm_num [gC, gA, giC, PICKUP_RANGE,
      Player.new])
    (by simp [gC, gA, Player.new, Inventory.new])

/-- With a full inventory every `add_item` in the scan pass fails, so the
scan returns the inventory and accumulator unchanged. -/
theorem pickupScan_full (px py : ℚ) (en : List (ℕ × GroundItem)) :
    ∀ (inv : Inventory) (picked : List (ℕ × String)), 8 ≤ inv.items.length →
      pickupScan px py inv picked en = (inv, picked) := by
  induction en with
  | nil =>
    intro inv picked _
    rfl
  | cons e rest ih =>
    intro inv picked h
    obtain ⟨i, gi⟩ := e
    have hadd : inv.addItem gi.item = (false, inv) := by
      unfold Inventory.addItem
      rw [if_neg (by simp only [INVENTORY_SIZE]; omega)]
    have hstep : pickupScan px py inv picked ((i, gi) :: rest)
        = if inPickupRange px py gi then
            match inv.addItem gi.item with
            | (true, inv2) => pickupScan px py inv2 (picked ++ [(i, gi.item.name)]) rest
            | (false, inv2) => pickupScan px py inv2 picked rest
          else pickupScan px py inv picked rest := rfl
    rw [hstep]
    by_cases hr : inPickupRange px py gi = true
    · rw [if_pos hr, hadd]
      exact ih inv picked h
    · rw [if_neg hr]
      exact ih inv picked h

/-- Claim C9: when the inventory is full, the pickup step changes nothing
at all — every add fails, the inventory is unchanged, no ground item is
removed and no floating text is created. -/
theorem c9_full_inventory_pickup_noop (g : Game) (h : 8 ≤ g.player.inventory.count) :
    g.checkItemPickup = g := by
  have hscan := pickupScan_full g.player.x g.player.y g.groundItems.enum g.player.inventory []
    (by simpa [Inventory.count] using h)
  unfold Game.checkItemPickup
  rw [hscan]
  rfl

/-- Witness for C9: full inventory, one in-range ground item, nothing
happens. -/
theorem c9_full_inventory_pickup_noop_witness : gFull.checkItemPickup = gFull :=
  c9_full_inventory_pickup_noop gFull (by decide)

/-! ## Claim C10: frozen simulation in the Inventory and GameOver states -/

/-- Equipping only touches the weapon or armor slot: all other player
fields survive. -/
theorem Player.equipItem_fields (p : Player) (item : Item) :
    (p.equipItem item).2.x = p.x ∧ (p.equipItem item).2.y = p.y ∧
    (p.equipItem item).2.health = p.health ∧
    (p.equipItem item).2.attackCooldown = p.attackCooldown ∧
    (p.equipItem item).2.regenTimer = p.regenTimer := by
  cases item <;> exact ⟨rfl, rfl, rfl, rfl, rfl⟩

/-- Claim C10: in the Inventory state one update step leaves the whole
simulation unchanged apart from the state toggle and the inventory equip
action — monsters, ground items, spawned chunks, floating texts, camera,
RNG, player position, health, attack cooldown and regen timer are exactly
as before; in the GameOver state the step is the identity unless the
confirm edge (Space/Enter) fires, in which case the documented transition
runs: a full reset via `Game::new`. -/
theorem c10_frozen_states (terrainAt : ℚ → ℚ → Terrain) (stepPlaying : Game → Game)
    (input : Input) (g : Game) :
    (g.state = GameState.Inventory →
      (Game.update terrainAt stepPlaying input g).monsters = g.monsters ∧
      (Game.update terrainAt stepPlaying input g).groundItems = g.groundItems ∧
      (Game.update terrainAt stepPlaying input g).spawnedChunks = g.spawnedChunks ∧
      (Game.update terrainAt stepPlaying input g).floatingTexts = g.floatingTexts ∧
      (Game.update terrainAt stepPlaying input g).camera = g.camera ∧
      (Game.update terrainAt stepPlaying input g).rng = g.rng ∧
      (Game.update terrainAt stepPlaying input g).player.x = g.player.x ∧
      (Game.update terrainAt stepPlaying input g).player.y = g.player.y ∧
      (Game.update terrainAt stepPlaying input g).player.health = g.player.health ∧
      (Game.update terrainAt stepPlaying input g).player.attackCooldown
        = g.player.attackCooldown ∧
      (Game.update terrainAt stepPlaying input g).player.regenTimer = g.player.regenTimer) ∧
    (g.state = GameState.GameOver → input.pressedSpace = false → input.pressedEnter = false →
      Game.update terrainAt stepPlaying input g = g) ∧
    (g.state = GameState.GameOver → (input.pressedSpace || input.pressedEnter) = true →
      Game.update terrainAt stepPlaying input g = Game.new terrainAt g.rng) := by
  refine ⟨?_, ?_, ?_⟩
  · intro hs
    simp only [Game.update, hs]
    unfold Game.updateInventory
    split_ifs with htoggle
    · exact ⟨rfl, rfl, rfl, rfl, rfl, rfl, rfl, rfl, rfl, rfl, rfl⟩
    · split
      · exact ⟨rfl, rfl, rfl, rfl, rfl, rfl, rfl, rfl, rfl, rfl, rfl⟩
      · split
        · exact ⟨rfl, rfl, rfl, rfl, rfl, rfl, rfl, rfl, rfl, rfl, rfl⟩
        · next item inv2 hrem =>
          dsimp only
          cases item with
          | Weapon w => exact ⟨rfl, rfl, rfl, rfl, rfl, rfl, rfl, rfl, rfl, rfl, rfl⟩
          | Armor a =>
            cases harm : g.player.armor with
            | none => exact ⟨rfl, rfl, rfl, rfl, rfl, rfl, rfl, rfl, rfl, rfl, rfl⟩
            | some oldArmor => exact ⟨rfl, rfl, rfl, rfl, rfl, rfl, rfl, rfl, rfl, rfl, rfl⟩
  · intro hs h1 h2
    simp only [Game.update, hs]
    unfold Game.updateGameOver
    rw [if_neg (by simp [h1, h2])]
  · intro hs hc
    simp only [Game.update, hs]
    unfold Game.updateGameOver
    rw [if_pos hc]

/-- Witness for C10: an idle frame in the Inventory state leaves the
monster list unchanged. -/
theorem c10_frozen_states_witness :
    (Game.update tGrass id Input.idle gInv).monsters = gInv.monsters :=
  ((c10_frozen_states tGrass id Input.idle gInv).1 rfl).1

end DiabloClone
